import Mathlib

/-
Verification of the repository layer of a payment-domain storage library
(entities: card, session, currency, profile, channel, route) against its
natural-language specification.  The Go source is shallowly embedded:

* `github.com/wk8/go-ordered-map` (the backing container of every
  in-memory store) is embedded as an association list `List (Int × α)`
  kept in insertion order: `Set` updates in place when the key is present
  and appends otherwise, `Delete` removes the entry and reports presence,
  `Get` looks the key up, `Len` is the length, and iteration from
  `Oldest` visits the values front to back.
* Go pointer fields (`*int`, `*string`, …) become `Option` values; a Go
  `nil`-pointer dereference is modelled with `Option.getD` and every
  theorem touching such a field carries the corresponding `= some _`
  hypothesis, matching the calling conventions of the source.
* Go `string` values that the code slices or scans are embedded as
  `List Char`; `error` results become `Option String` (`none` = Go `nil`)
  or `Except String`.
* Effects the repository receives from outside (the crypto random token,
  the wall clock, HTTP responses, the SQL sub-repository used for
  hydration) are passed in as explicit arguments, so every operation is a
  pure function of its inputs.
-/

namespace Repo

/-- Single quote character, written by code point to keep SQL fragments
readable as plain character lists. -/
def sqlQuote : Char := Char.ofNat 39

/-! ## Ordered map (wk8/go-ordered-map), embedded as an assoc list -/

/-- `OrderedMap.Get`: first entry with the key, scanning in insertion
order. -/
def omGet {α : Type} (m : List (Int × α)) (k : Int) : Option α :=
  match m with
  | [] => none
  | (k₀, v) :: rest => if k₀ = k then some v else omGet rest k

/-- `OrderedMap.Set`: update the value in place when the key is present
(keeping its position), append a fresh entry otherwise. -/
def omSet {α : Type} (m : List (Int × α)) (k : Int) (v : α) : List (Int × α) :=
  match m with
  | [] => [(k, v)]
  | (k₀, v₀) :: rest =>
      if k₀ = k then (k₀, v) :: rest else (k₀, v₀) :: omSet rest k v

/-- `OrderedMap.Delete`: remove the entry with the key and return the
previous value (`none` when absent, mirroring the `present` flag). -/
def omDelete {α : Type} (m : List (Int × α)) (k : Int) :
    Option α × List (Int × α) :=
  match m with
  | [] => (none, [])
  | (k₀, v) :: rest =>
      if k₀ = k then (some v, rest)
      else
        let r := omDelete rest k
        (r.1, (k₀, v) :: r.2)

/-- Values in insertion order, as visited by `Oldest … Next`. -/
def omValues {α : Type} (m : List (Int × α)) : List α := m.map Prod.snd

/-! ## Card entity (card.go) -/

/-- Primary account number (`type PAN string`). -/
abbrev PAN : Type := List Char

/-- `PAN.String` (card.go): mask all but the last four characters with
asterisks; a non-positive `len(s)-4` is clamped to zero (Nat subtraction
mirrors the `if repeat < 0` clamp of the source). -/
def PAN.String (s : PAN) : List Char :=
  let rep : Nat := List.length s - 4
  List.replicate rep '*' ++ List.drop rep s

/-- A card record; every Go pointer field is an `Option`.  The expiry
date is abstracted to its epoch value (its content is never inspected by
the verified operations). -/
structure Card where
  id : Option Int
  token : Option String
  pan : Option PAN
  expDate : Option Int
  holder : Option String
  deriving DecidableEq

/-- In-memory card store: the ordered map plus the monotonic id
counter. -/
structure OrderedMapCardStore where
  cards : List (Int × Card)
  nextId : Int
  deriving DecidableEq

/-- `NewOrderedMapCardStore`: wraps the supplied (empty at wiring time)
ordered map with the counter starting at 1. -/
def NewOrderedMapCardStore (cards : List (Int × Card)) : OrderedMapCardStore :=
  { cards := cards, nextId := 1 }

/-- `OrderedMapCardStore.Add` on the success path of `generateToken`:
the freshly hashed token is passed in as the oracle argument `tok`.
Assigns `nextId` as id, stores the record under that id, bumps the
counter, and leaves the caller holding the updated record. -/
def OrderedMapCardStore.Add (cs : OrderedMapCardStore) (tok : String)
    (card : Card) : OrderedMapCardStore × Card :=
  let card := { card with id := some cs.nextId, token := some tok }
  ({ cards := omSet cs.cards cs.nextId card, nextId := cs.nextId + 1 }, card)

/-- `OrderedMapCardStore.Delete`: remove by `*card.Id`; when absent,
return the not-found error with `true`; when present, copy the deleted
record's fields into the caller's record.  Result order:
`((error, notFound), store after, caller's record after)`. -/
def OrderedMapCardStore.Delete (cs : OrderedMapCardStore) (card : Card) :
    (Option String × Bool) × OrderedMapCardStore × Card :=
  let i := card.id.getD 0
  match omDelete cs.cards i with
  | (none, m) => ((some "card not found", true), { cs with cards := m }, card)
  | (some deleted, m) =>
      ((none, false), { cs with cards := m },
        { card with
            token := deleted.token
            pan := deleted.pan
            expDate := deleted.expDate
            holder := deleted.holder })

/-- Result triple of a repository `Query`. -/
structure QueryResult (α : Type) where
  err : Option String
  totalCount : Nat
  matched : List α
  deriving DecidableEq

/-- The specification-driven forward pass shared by the in-memory
`Query` implementations: the position index `c` increments for every
record visited, matched or not. -/
def queryLoop {α : Type} (spec : α → Nat → Bool) :
    List α → Nat → List α
  | [], _ => []
  | x :: xs, c =>
      if spec x c then x :: queryLoop spec xs (c + 1)
      else queryLoop spec xs (c + 1)

/-- `OrderedMapCardStore.Query`: single pass over the ordered values;
`totalCount` is `cards.Len()`, independent of the specification. -/
def OrderedMapCardStore.Query (cs : OrderedMapCardStore)
    (spec : Card → Nat → Bool) : QueryResult Card :=
  { err := none
    totalCount := cs.cards.length
    matched := queryLoop spec (omValues cs.cards) 0 }

/-- `CardSpecificationWithLimitAndOffset` (card.go); `limit` and
`offset` are Go `int`s. -/
structure CardSpecificationWithLimitAndOffset where
  limit : Int
  offset : Int

/-- `Specified`: `i >= offset && i < offset+limit`; the position index
produced by the query loop is a natural number, compared as a Go int. -/
def CardSpecificationWithLimitAndOffset.Specified
    (s : CardSpecificationWithLimitAndOffset) (_card : Card) (i : Nat) : Bool :=
  decide (s.offset ≤ (i : Int) ∧ (i : Int) < s.offset + s.limit)

/-- `CardSpecificationByPAN.Specified`: PAN equality against the stored
record (dereferencing `*card.PAN`). -/
def CardSpecificationByPAN.Specified (pan : PAN) (card : Card) (_i : Nat) : Bool :=
  decide (card.pan.getD [] = pan)

/-! ## Session entity (vault revision of the session file) -/

/-- Fixed session TTL in seconds (`expireSeconds = 300`). -/
def expireSeconds : Nat := 300

/-- A session record; `SessionData` is opaque to every verified
operation and is abstracted to its JSON text.  Time is modelled in
seconds. -/
structure Session where
  id : Option Int
  key : Option String
  data : Option String
  expireAt : Option Nat
  deriving DecidableEq

/-- `Session.hasExpired`: `ExpireAt.Before(time.Now())`, i.e. a strict
comparison against the current time (`now`), dereferencing
`*s.ExpireAt`. -/
def Session.hasExpired (s : Session) (now : Nat) : Bool :=
  decide (s.expireAt.getD 0 < now)

/-- In-memory session store. -/
structure OrderedMapSessionStore where
  sessions : List (Int × Session)
  nextId : Int
  deriving DecidableEq

/-- `NewOrderedMapSessionStore`: counter starts at 1. -/
def NewOrderedMapSessionStore (sessions : List (Int × Session)) :
    OrderedMapSessionStore :=
  { sessions := sessions, nextId := 1 }

/-- `OrderedMapSessionStore.Add`: assigns `nextId` as id, stamps
`ExpireAt = time.Now().Add(expireSeconds * time.Second)` (the current
time `now` is the clock oracle), stores the record and bumps the
counter. -/
def OrderedMapSessionStore.Add (ss : OrderedMapSessionStore) (now : Nat)
    (session : Session) : OrderedMapSessionStore × Session :=
  let session :=
    { session with id := some ss.nextId, expireAt := some (now + expireSeconds) }
  ({ sessions := omSet ss.sessions ss.nextId session, nextId := ss.nextId + 1 },
    session)

/-- The session query pass: a record is collected when the
specification matches at its position and it has not expired; the
position index increments either way. -/
def sessionQueryLoop (spec : Session → Nat → Bool) (now : Nat) :
    List Session → Nat → List Session
  | [], _ => []
  | s :: rest, c =>
      if spec s c && !s.hasExpired now then
        s :: sessionQueryLoop spec now rest (c + 1)
      else sessionQueryLoop spec now rest (c + 1)

/-- `OrderedMapSessionStore.Query`: expiry is a query-time filter; the
store itself is not modified and `totalCount` is `sessions.Len()`. -/
def OrderedMapSessionStore.Query (ss : OrderedMapSessionStore)
    (spec : Session → Nat → Bool) (now : Nat) : QueryResult Session :=
  { err := none
    totalCount := ss.sessions.length
    matched := sessionQueryLoop spec now (omValues ss.sessions) 0 }

/-! ## Currency entity (currency.go, pointer-id revision) -/

/-- A currency record of the pointer-id revision of currency.go. -/
structure Currency where
  id : Option Int
  numericCode : Option Int
  name : Option String
  charCode : Option String
  exponent : Option Int
  deriving DecidableEq

/-- In-memory currency store (pointer-id revision; its constructor
starts the counter at 1). -/
structure OrderedMapCurrencyStore where
  currencies : List (Int × Currency)
  nextId : Int
  deriving DecidableEq

/-- `NewOrderedMapCurrencyStore` (pointer-id revision): counter starts
at 1. -/
def NewOrderedMapCurrencyStore (currencies : List (Int × Currency)) :
    OrderedMapCurrencyStore :=
  { currencies := currencies, nextId := 1 }

/-- `OrderedMapCurrencyStore.Update`: look the record up by
`*currency.Id`; absent ⇒ not-found error with `true`.  Present ⇒ the
field-by-field merge of the source: for each optional field, a non-nil
input value overwrites the stored one, otherwise the stored value is
copied back into the caller's record; the merged record is written back
under `*old.Id`.  Result order:
`((error, notFound), store after, caller's record after)`. -/
def OrderedMapCurrencyStore.Update (cs : OrderedMapCurrencyStore)
    (currency : Currency) : (Option String × Bool) × OrderedMapCurrencyStore × Currency :=
  match omGet cs.currencies (currency.id.getD 0) with
  | none => ((some "currency not found", true), cs, currency)
  | some old =>
      let st1 :=
        if currency.numericCode.isSome then
          ({ old with numericCode := currency.numericCode }, currency)
        else (old, { currency with numericCode := old.numericCode })
      let st2 :=
        if st1.2.name.isSome then
          ({ st1.1 with name := st1.2.name }, st1.2)
        else (st1.1, { st1.2 with name := st1.1.name })
      let st3 :=
        if st2.2.charCode.isSome then
          ({ st2.1 with charCode := st2.2.charCode }, st2.2)
        else (st2.1, { st2.2 with charCode := st2.1.charCode })
      let st4 :=
        if st3.2.exponent.isSome then
          ({ st3.1 with exponent := st3.2.exponent }, st3.2)
        else (st3.1, { st3.2 with exponent := st3.1.exponent })
      ((none, false),
        { cs with currencies := omSet cs.currencies (st4.1.id.getD 0) st4.1 },
        st4.2)

/-! ## Currency entity, earliest revision (value id, counter from 0) -/

/-- A currency record of the earliest revision of currency.go, whose
`Id` is a plain (non-pointer) `int`. -/
structure CurrencyV1 where
  id : Int
  numericCode : Option Int
  name : Option String
  charCode : Option String
  exponent : Option Int
  deriving DecidableEq

/-- In-memory currency store of the earliest revision. -/
structure OrderedMapCurrencyStoreV1 where
  currencies : List (Int × CurrencyV1)
  nextId : Int
  deriving DecidableEq

/-- `NewOrderedMapCurrencyStore` of the earliest revision: a fresh empty
ordered map and `nextId = 0`. -/
def NewOrderedMapCurrencyStoreV1 : OrderedMapCurrencyStoreV1 :=
  { currencies := [], nextId := 0 }

/-- `OrderedMapCurrencyStoreV1.Add`: `currency.Id = cs.nextId`, store
under that id, bump the counter. -/
def OrderedMapCurrencyStoreV1.Add (cs : OrderedMapCurrencyStoreV1)
    (currency : CurrencyV1) : OrderedMapCurrencyStoreV1 × CurrencyV1 :=
  let currency := { currency with id := cs.nextId }
  ({ currencies := omSet cs.currencies currency.id currency,
     nextId := cs.nextId + 1 }, currency)

/-- Run a sequence of card `Add` calls (each with its token oracle),
collecting the identifiers assigned to the callers' records. -/
def cardStoreAddAll : OrderedMapCardStore → List (String × Card) →
    OrderedMapCardStore × List Int
  | cs, [] => (cs, [])
  | cs, (tok, card) :: rest =>
      let r := cs.Add tok card
      let rec' := cardStoreAddAll r.1 rest
      (rec'.1, r.2.id.getD 0 :: rec'.2)

/-- Run a sequence of earliest-revision currency `Add` calls, collecting
the assigned identifiers. -/
def currencyStoreV1AddAll : OrderedMapCurrencyStoreV1 → List CurrencyV1 →
    OrderedMapCurrencyStoreV1 × List Int
  | cs, [] => (cs, [])
  | cs, currency :: rest =>
      let r := cs.Add currency
      let rec' := currencyStoreV1AddAll r.1 rest
      (rec'.1, r.2.id :: rec'.2)

/-! ## Profile entity and foreign-key hydration (profile.go) -/

/-- A profile record. -/
structure Profile where
  id : Option Int
  key : Option String
  description : Option String
  currency : Option Currency
  deriving DecidableEq

/-- `refreshProfileCurrency` (shared by the ordered-map and the pg-pool
profile stores): a nil or id-less currency reference is left untouched;
otherwise the currency repository is queried by id — the sub-repository
is passed in as `queryById`, returning either an error or the
`(totalCount, matches)` pair of its `Query` — and the source's
`for … range` loop assigns every returned match to `profile.Currency`
in turn (so the reference ends at the last match, and an empty result
leaves the shallow reference in place). -/
def refreshProfileCurrency
    (queryById : Int → Except String (Nat × List Currency))
    (profile : Profile) : Except String Profile :=
  match profile.currency with
  | none => .ok profile
  | some cur =>
      match cur.id with
      | none => .ok profile
      | some i =>
          match queryById i with
          | .error e => .error ("Can not update profile currency: " ++ e)
          | .ok r =>
              .ok (r.2.foldl (fun p c => { p with currency := some c }) profile)

/-- Modelled from the spec: the hydration step as §4.3 words it — the
reference is replaced with the *first* returned match, zero matches
leave the shallow reference, nil/id-less references are untouched, and a
sub-query error propagates. -/
def refreshProfileCurrencySpecFirst
    (queryById : Int → Except String (Nat × List Currency))
    (profile : Profile) : Except String Profile :=
  match profile.currency with
  | none => .ok profile
  | some cur =>
      match cur.id with
      | none => .ok profile
      | some i =>
          match queryById i with
          | .error e => .error ("Can not update profile currency: " ++ e)
          | .ok r =>
              .ok (match r.2 with
                   | [] => profile
                   | c :: _ => { profile with currency := some c })

/-- A route record, reduced to the fields `refreshRouteProfile`
touches. -/
structure Route where
  id : Option Int
  profile : Option Profile
  deriving DecidableEq

/-- `refreshRouteProfile` (card.go, pg-pool route store): same shape as
`refreshProfileCurrency`, over the route's profile reference. -/
def refreshRouteProfile
    (queryById : Int → Except String (Nat × List Profile))
    (route : Route) : Except String Route :=
  match route.profile with
  | none => .ok route
  | some p =>
      match p.id with
      | none => .ok route
      | some i =>
          match queryById i with
          | .error e => .error ("Can not update route profile: " ++ e)
          | .ok r =>
              .ok (r.2.foldl (fun rt pr => { rt with profile := some pr }) route)

/-- Modelled from the spec: `refreshRouteProfile` as §4.3 words it
(first returned match). -/
def refreshRouteProfileSpecFirst
    (queryById : Int → Except String (Nat × List Profile))
    (route : Route) : Except String Route :=
  match route.profile with
  | none => .ok route
  | some p =>
      match p.id with
      | none => .ok route
      | some i =>
          match queryById i with
          | .error e => .error ("Can not update route profile: " ++ e)
          | .ok r =>
              .ok (match r.2 with
                   | [] => route
                   | pr :: _ => { route with profile := some pr })

/-! ## By-key SQL fragments (profile.go, channel file) -/

/-- `ProfileSpecificationByKey.ToSqlClauses`:
`fmt.Sprintf("where key='%s'", key)` — the key is interpolated verbatim
between two quote characters. -/
def ProfileSpecificationByKey.ToSqlClauses (key : List Char) : List Char :=
  "where key=".data ++ [sqlQuote] ++ key ++ [sqlQuote]

/-- `ChannelSpecificationByKey.ToSqlClauses`: identical rendering in the
channel file. -/
def ChannelSpecificationByKey.ToSqlClauses (key : List Char) : List Char :=
  "where key=".data ++ [sqlQuote] ++ key ++ [sqlQuote]

/-- The content of the quoted literal of a rendered by-key fragment: the
characters after the opening quote (position 11 of
`where key='…`) up to the first quote character. -/
def literalContent (frag : List Char) : List Char :=
  (frag.drop 11).takeWhile (fun ch => ch != sqlQuote)

/-- The clause text a rendered by-key fragment carries *after* the
quoted literal terminates (everything past the literal's closing
quote). -/
def afterLiteral (frag : List Char) : List Char :=
  ((frag.drop 11).dropWhile (fun ch => ch != sqlQuote)).drop 1

/-- The input-sanitization contract of §4.1: the value read back from
the fragment's quoted literal is the value itself and nothing of the
value spills past the literal into further clause text. -/
def valueConfined (key frag : List Char) : Bool :=
  literalContent frag == key && afterLiteral frag == []

/-- The classic injection key `x' or '1'='1`. -/
def injectionKey : List Char :=
  "x".data ++ [sqlQuote] ++ " or ".data ++ [sqlQuote] ++ "1".data ++
    [sqlQuote] ++ "=".data ++ [sqlQuote] ++ "1".data

/-! ## HTTP vault card store (card.go) -/

/-- Double quote character (for the masking regexes). -/
def dquote : Char := Char.ofNat 34

/-- `HttpClientCardStore.maskParams`, modelled on its `pan=…` input
family: for a datum of the exact form `pan=` ++ `v` where `v` holds
neither `&` nor a double quote, the Go regexp `pan=[^&]+([^&]{4})`
matches precisely when `v` has at least 5 characters (greedy `[^&]+`
plus the 4 captured ones), consuming all of `v` and capturing its last
four characters; `ReplaceAllString` with `pan=******$1` then yields a
fixed six-asterisk mask before those four.  The second regexp
(`"pan":"[^"]+([^"]{4})"`) needs double quotes and cannot match this
family, so it leaves the result unchanged. -/
def HttpClientCardStore.maskPanQueryParam (v : List Char) : List Char :=
  if 5 ≤ v.length ∧ '&' ∉ v ∧ dquote ∉ v then
    "pan=******".data ++ v.drop (v.length - 4)
  else
    "pan=".data ++ v

/-- Outcome of one vault HTTP call as the store observes it:
`transportError` covers every failure of `makeRequest` (request
construction, transport, body read, top-level JSON unmarshal);
`response` carries the HTTP status and the decoded payload. -/
inductive HttpOutcome (β : Type) where
  | transportError (msg : String)
  | response (status : Int) (body : β)
  deriving DecidableEq

deriving instance DecidableEq for Except

/-- Payload of a vault card `Query` response: the `data` key may be
absent, hold a non-list value, or hold a list of rows, each decoding to
a card or failing. -/
inductive CardQueryBody where
  | noData
  | badListType
  | rows (rs : List (Except String Card))
  deriving DecidableEq

/-- The row loop of the vault card `Query`: rows decoded so far are
kept; the first decode failure aborts with the error and the partial
list. -/
def collectCardRows : List (Except String Card) → Option String × List Card
  | [] => (none, [])
  | .error e :: _ =>
      (some ("can not decode query card list json body response: " ++ e), [])
  | .ok card :: rest =>
      let r := collectCardRows rest
      (r.1, card :: r.2)

/-- `HttpClientCardStore.Query`: the counter `c` is initialised to 0 and
never assigned on any path, so every outcome reports `totalCount = 0`;
the HTTP status is ignored. -/
def HttpClientCardStore.Query (resp : HttpOutcome CardQueryBody) :
    QueryResult Card :=
  match resp with
  | .transportError msg =>
      { err := some ("can not make query card request: " ++ msg),
        totalCount := 0, matched := [] }
  | .response _ body =>
      match body with
      | .noData =>
          { err := some "card query response has no list",
            totalCount := 0, matched := [] }
      | .badListType =>
          { err := some "card query response list has wrong type",
            totalCount := 0, matched := [] }
      | .rows rs =>
          let r := collectCardRows rs
          { err := r.1, totalCount := 0, matched := r.2 }

/-- `HttpClientCardStore.Delete`: a transport failure, a non-200 status
and a decode failure each return the error with the boolean `true`; on
success the response body decoded over the caller's record is handed
back with `(nil, false)`. -/
def HttpClientCardStore.Delete (resp : HttpOutcome (Except String Card))
    (card : Card) : (Option String × Bool) × Card :=
  match resp with
  | .transportError msg =>
      ((some ("cat not make delete card request: " ++ msg), true), card)
  | .response status dec =>
      if status ≠ 200 then
        ((some "failed to make delete card request", true), card)
      else
        match dec with
        | .error e =>
            ((some ("can not decode delete card json body response: " ++ e),
              true), card)
        | .ok decoded => ((none, false), decoded)

/-- A concrete card used by closed witness and counterexample
statements. -/
def sampleCard : Card :=
  { id := some 1, token := some "tok", pan := some "4111111111111111".data,
    expDate := some 0, holder := some "A B" }

/-- A concrete profile (shallow currency reference) used by closed
statements. -/
def sampleProfile : Profile :=
  { id := some 1, key := some "p", description := none,
    currency := some { id := some 2, numericCode := none, name := none,
                       charCode := none, exponent := none } }

/-- A concrete route (shallow profile reference) used by closed
statements. -/
def sampleRoute : Route :=
  { id := some 1, profile := some sampleProfile }

/-- A concrete earliest-revision currency used by closed statements. -/
def sampleCurrencyV1 : CurrencyV1 :=
  { id := 0, numericCode := some 840, name := some "US Dollar",
    charCode := some "USD", exponent := some 2 }

/-- A concrete session that is already expired at time 1000. -/
def expiredSession : Session :=
  { id := some 1, key := some "k", data := some "d", expireAt := some 500 }

/-- The declarative partial-update merge of §3: each non-absent input
field overwrites the stored one, each absent input field keeps the
stored value; the identifier is the stored record's. -/
def mergeCurrency (old input : Currency) : Currency :=
  { id := old.id
    numericCode := input.numericCode.or old.numericCode
    name := input.name.or old.name
    charCode := input.charCode.or old.charCode
    exponent := input.exponent.or old.exponent }

/-- The caller's record after a currency `Update`: the full merged state
with the identifier it supplied. -/
def mergedCaller (old input : Currency) : Currency :=
  { mergeCurrency old input with id := input.id }

/-- The caller's card after a successful `Delete`: its other fields
populated from the deleted record. -/
def populatedFromDeleted (card deleted : Card) : Card :=
  { card with
      token := deleted.token
      pan := deleted.pan
      expDate := deleted.expDate
      holder := deleted.holder }

/-- A concrete stored currency for closed statements. -/
def storedCurrency : Currency :=
  { id := some 1, numericCode := some 840, name := some "US Dollar",
    charCode := some "USD", exponent := some 2 }

/-- A concrete partial update record: only the numeric code is
supplied. -/
def partialCurrency : Currency :=
  { id := some 1, numericCode := some 978, name := none,
    charCode := none, exponent := none }

/-- A concrete one-record currency store for closed statements. -/
def currencyStoreSample : OrderedMapCurrencyStore :=
  { currencies := [(1, storedCurrency)], nextId := 2 }

/-! ## Theorems -/

/-- The limit/offset pass, started at position `c`, selects the
drop/take window of the remaining list. -/
theorem queryLoop_limoff (limit offset : ℕ) (l : List Card) :
    ∀ c : ℕ,
      queryLoop
        (CardSpecificationWithLimitAndOffset.Specified
          { limit := (limit : Int), offset := (offset : Int) }) l c
        = (l.drop (offset - c)).take (offset + limit - max offset c) := by
  induction l with
  | nil => intro c; simp [queryLoop]
  | cons x xs ih =>
      intro c
      rw [queryLoop]
      rcases Nat.lt_or_ge c offset with hc | hc
      · have hdec : CardSpecificationWithLimitAndOffset.Specified
            { limit := (limit : Int), offset := (offset : Int) } x c = false := by
          simp only [CardSpecificationWithLimitAndOffset.Specified,
            decide_eq_false_iff_not, not_and, not_lt]
          intro h
          exfalso
          omega
        rw [hdec]
        simp only [Bool.false_eq_true, if_false]
        rw [ih (c + 1)]
        have h1 : offset - c = (offset - (c + 1)) + 1 := by omega
        have h2 : max offset (c + 1) = max offset c := by omega
        rw [h1, List.drop_succ_cons, h2]
      · rcases Nat.lt_or_ge c (offset + limit) with hlt | hge
        · have hdec : CardSpecificationWithLimitAndOffset.Specified
              { limit := (limit : Int), offset := (offset : Int) } x c = true := by
            simp only [CardSpecificationWithLimitAndOffset.Specified,
              decide_eq_true_eq]
            constructor <;> [exact_mod_cast hc; exact_mod_cast hlt]
          rw [hdec]
          simp only [if_true]
          rw [ih (c + 1)]
          have h1 : offset - c = 0 := by omega
          have h2 : offset - (c + 1) = 0 := by omega
          have h3 : max offset c = c := by omega
          have h4 : max offset (c + 1) = c + 1 := by omega
          have h5 : offset + limit - c = (offset + limit - (c + 1)) + 1 := by omega
          rw [h1, h2, h3, h4, h5, List.drop_zero, List.drop_zero,
            List.take_succ_cons]
        · have hdec : CardSpecificationWithLimitAndOffset.Specified
              { limit := (limit : Int), offset := (offset : Int) } x c = false := by
            simp only [CardSpecificationWithLimitAndOffset.Specified,
              decide_eq_false_iff_not, not_and, not_lt]
            intro _
            exact_mod_cast Int.ofNat_le.mpr hge
          rw [hdec]
          simp only [Bool.false_eq_true, if_false]
          rw [ih (c + 1)]
          have h1 : offset + limit - max offset (c + 1) = 0 := by omega
          have h2 : offset + limit - max offset c = 0 := by omega
          rw [h1, h2]
          simp

/-- Claim C5: over an in-memory store of N records, `Query` with a
limit/offset specification (parameters taken as the natural numbers of
the pagination domain, compared as Go ints by `Specified`) returns
exactly the insertion-order window `drop offset, take limit` of the
stored values, whose length is `min limit (N - offset)` — Nat
subtraction being exactly `max(0, N-offset)`. -/
theorem query_limit_offset_window (cs : OrderedMapCardStore)
    (limit offset : ℕ) :
    (cs.Query (CardSpecificationWithLimitAndOffset.Specified
        { limit := (limit : Int), offset := (offset : Int) })).matched
      = ((omValues cs.cards).drop offset).take limit
    ∧ (cs.Query (CardSpecificationWithLimitAndOffset.Specified
        { limit := (limit : Int), offset := (offset : Int) })).matched.length
      = min limit (cs.cards.length - offset) := by
  have h := queryLoop_limoff limit offset (omValues cs.cards) 0
  simp only [Nat.sub_zero, Nat.max_zero, Nat.add_sub_cancel_left] at h
  constructor
  · simpa [OrderedMapCardStore.Query] using h
  · simp only [OrderedMapCardStore.Query, omValues] at h ⊢
    rw [h, List.length_take, List.length_drop, List.length_map]

/-- Claim C1 (evaluation at the failing input): the by-key fragments
interpolate the key verbatim, so the injection key `x' or '1'='1`
terminates the quoted literal after `x` and contributes trailing clause
text; the §4.1 confinement contract is violated by both cited
renderers. -/
theorem bykey_fragment_injection :
    ProfileSpecificationByKey.ToSqlClauses injectionKey
      = "where key=".data ++ [sqlQuote] ++ injectionKey ++ [sqlQuote]
    ∧ literalContent (ProfileSpecificationByKey.ToSqlClauses injectionKey)
      = "x".data
    ∧ literalContent (ProfileSpecificationByKey.ToSqlClauses injectionKey)
      ≠ injectionKey
    ∧ afterLiteral (ProfileSpecificationByKey.ToSqlClauses injectionKey) ≠ []
    ∧ valueConfined injectionKey
        (ProfileSpecificationByKey.ToSqlClauses injectionKey) = false
    ∧ valueConfined injectionKey
        (ChannelSpecificationByKey.ToSqlClauses injectionKey) = false := by
  decide

/-- Claim C3 (amended): `PAN.String` masks with exactly `L-4` asterisks
and shows short values in full, but `maskParams` replaces the leading
characters of a matched `pan=` value with a *fixed* six-asterisk mask
(the regex replacement text `pan=******$1`), keeping the last four
visible; values of length < 5 are not matched by the regex at all, so
they pass through entirely unmasked. -/
theorem pan_masking_amended :
    (∀ s : PAN, 4 ≤ s.length →
      PAN.String s
        = List.replicate (s.length - 4) '*' ++ s.drop (s.length - 4))
    ∧ (∀ s : PAN, s.length < 4 → PAN.String s = s)
    ∧ (∀ v : List Char, 5 ≤ v.length → '&' ∉ v → dquote ∉ v →
        HttpClientCardStore.maskPanQueryParam v
          = "pan=******".data ++ v.drop (v.length - 4))
    ∧ (∀ v : List Char, v.length < 5 →
        HttpClientCardStore.maskPanQueryParam v = "pan=".data ++ v) := by
  refine ⟨fun s _ => rfl, fun s hs => ?_, fun v h5 hamp hq => ?_,
    fun v hv => ?_⟩
  · have h0 : s.length - 4 = 0 := by omega
    simp [PAN.String, h0]
  · simp [HttpClientCardStore.maskPanQueryParam, h5, hamp, hq]
  · rw [HttpClientCardStore.maskPanQueryParam,
      if_neg (by rintro ⟨h5, -⟩; omega)]

/-- Witness for the amended C3 theorem at concrete inputs, including a
four-character pan value which the masking regex leaves untouched. -/
theorem pan_masking_amended_witness :
    PAN.String ("4111111111111111".data)
      = List.replicate (("4111111111111111".data).length - 4) '*'
          ++ ("4111111111111111".data).drop (("4111111111111111".data).length - 4)
    ∧ PAN.String ("411".data) = "411".data
    ∧ HttpClientCardStore.maskPanQueryParam ("4111111111111111".data)
      = "pan=******".data
          ++ ("4111111111111111".data).drop (("4111111111111111".data).length - 4)
    ∧ HttpClientCardStore.maskPanQueryParam ("4111".data)
      = "pan=".data ++ "4111".data := by
  refine ⟨pan_masking_amended.1 _ (by decide),
    pan_masking_amended.2.1 _ (by decide),
    pan_masking_amended.2.2.1 _ (by decide) (by decide) (by decide),
    pan_masking_amended.2.2.2 _ (by decide)⟩

/-- Counterexample to claim C3 as stated: for the 16-digit PAN the
claim demands 12 mask characters before the last four, but `maskParams`
produces exactly six. -/
theorem pan_masking_counterexample :
    HttpClientCardStore.maskPanQueryParam ("4111111111111111".data)
      = "pan=******1111".data
    ∧ HttpClientCardStore.maskPanQueryParam ("4111111111111111".data)
      ≠ "pan=".data ++ List.replicate 12 '*' ++ "1111".data := by
  decide

/-- The in-memory pass equals a positional filter over the enumerated
values. -/
theorem queryLoop_eq_enumFrom {α : Type} (spec : α → Nat → Bool)
    (l : List α) : ∀ c : ℕ,
    queryLoop spec l c
      = ((List.enumFrom c l).filter (fun p => spec p.2 p.1)).map Prod.snd := by
  induction l with
  | nil => intro c; simp [queryLoop]
  | cons x xs ih =>
      intro c
      rw [queryLoop, List.enumFrom]
      by_cases h : spec x c
      · simp [List.filter_cons, h, ih (c + 1)]
      · simp [List.filter_cons, h, ih (c + 1)]

/-- Claim C2 (amended): the in-memory `Query` reports `totalCount` as
the size of the whole store and returns exactly the
specification-matching records, while the HTTP vault `Query` never
assigns its counter and reports `totalCount = 0` on every outcome. -/
theorem query_total_count_amended :
    (∀ (cs : OrderedMapCardStore) (spec : Card → Nat → Bool),
        (cs.Query spec).totalCount = cs.cards.length
        ∧ (cs.Query spec).matched
          = ((List.enumFrom 0 (omValues cs.cards)).filter
              (fun p => spec p.2 p.1)).map Prod.snd)
    ∧ (∀ resp : HttpOutcome CardQueryBody,
        (HttpClientCardStore.Query resp).totalCount = 0) := by
  constructor
  · intro cs spec
    exact ⟨rfl, queryLoop_eq_enumFrom spec (omValues cs.cards) 0⟩
  · intro resp
    rcases resp with msg | ⟨st, body⟩
    · rfl
    · cases body <;> rfl

/-- Counterexample to claim C2 as stated: a successful vault query
whose response carries one record still reports `totalCount = 0`, below
even the number of matches it returns, so `totalCount` is not the size
of the store. -/
theorem query_total_count_counterexample :
    (HttpClientCardStore.Query
        (.response 200 (.rows [.ok sampleCard]))).err = none
    ∧ (HttpClientCardStore.Query
        (.response 200 (.rows [.ok sampleCard]))).matched.length = 1
    ∧ (HttpClientCardStore.Query
        (.response 200 (.rows [.ok sampleCard]))).totalCount = 0 := by
  decide

/-- Setting a key makes it readable back. -/
theorem omGet_omSet_self {α : Type} (m : List (Int × α)) (k : Int) (v : α) :
    omGet (omSet m k v) k = some v := by
  induction m with
  | nil => simp [omSet, omGet]
  | cons p rest ih =>
      rcases p with ⟨k₀, v₀⟩
      by_cases h : k₀ = k <;> simp [omSet, omGet, h, ih]

/-- The value returned by `Delete` is the one `Get` sees. -/
theorem omDelete_fst {α : Type} (m : List (Int × α)) (k : Int) :
    (omDelete m k).1 = omGet m k := by
  induction m with
  | nil => simp [omDelete, omGet]
  | cons p rest ih =>
      rcases p with ⟨k₀, v₀⟩
      by_cases h : k₀ = k <;> simp [omDelete, omGet, h, ih]

/-- Deleting an absent key leaves the map unchanged. -/
theorem omDelete_absent {α : Type} (m : List (Int × α)) (k : Int)
    (h : omGet m k = none) : omDelete m k = (none, m) := by
  induction m with
  | nil => simp [omDelete]
  | cons p rest ih =>
      rcases p with ⟨k₀, v₀⟩
      by_cases hk : k₀ = k
      · rw [omGet, if_pos hk] at h
        cases h
      · rw [omGet, if_neg hk] at h
        simp [omDelete, hk, ih h]

/-- Claim C4: the in-memory currency `Update`, on a stored record with
the input's identifier, returns no error and `notFound = false`, writes
back exactly the declarative merge `mergeCurrency old input` (non-absent
input fields overwrite, absent ones keep the stored values) under the
stored record's id, and hands the caller back the fully merged state. -/
theorem currency_update_merges (cs : OrderedMapCurrencyStore)
    (currency old : Currency) (i : Int)
    (hid : currency.id = some i)
    (hold : omGet cs.currencies i = some old) :
    (cs.Update currency).1 = (none, false)
    ∧ ((cs.Update currency).2.1).currencies
      = omSet cs.currencies (old.id.getD 0) (mergeCurrency old currency)
    ∧ (cs.Update currency).2.2 = mergedCaller old currency
    ∧ omGet ((cs.Update currency).2.1).currencies (old.id.getD 0)
      = some (mergeCurrency old currency) := by
  have h : cs.Update currency
      = ((none, false), { cs with currencies := omSet cs.currencies (old.id.getD 0) (mergeCurrency old currency) }, mergedCaller old currency) := by
    rcases currency with ⟨cid, cnc, cn, ccc, cex⟩
    have hid2 : cid = some i := hid
    subst hid2
    rcases cnc with _ | nv <;> rcases cn with _ | nm <;>
      rcases ccc with _ | cc <;> rcases cex with _ | ex <;>
        simp [OrderedMapCurrencyStore.Update, mergeCurrency, mergedCaller,
          hold, Option.or]
  rw [h]
  exact ⟨rfl, rfl, rfl, omGet_omSet_self _ _ _⟩

/-- Witness for the C4 theorem: updating only the numeric code of a
stored currency. -/
theorem currency_update_merges_witness :
    (currencyStoreSample.Update partialCurrency).1 = (none, false)
    ∧ ((currencyStoreSample.Update partialCurrency).2.1).currencies
      = omSet currencyStoreSample.currencies (storedCurrency.id.getD 0)
          (mergeCurrency storedCurrency partialCurrency)
    ∧ (currencyStoreSample.Update partialCurrency).2.2
      = mergedCaller storedCurrency partialCurrency
    ∧ omGet ((currencyStoreSample.Update partialCurrency).2.1).currencies
        (storedCurrency.id.getD 0)
      = some (mergeCurrency storedCurrency partialCurrency) :=
  currency_update_merges currencyStoreSample partialCurrency storedCurrency 1
    (by decide) (by decide)

/-- Claim C6 (amended): the in-memory `Delete` returns `notFound = true`
exactly on a missing identifier, leaving store and caller record
untouched, and populates the caller's record from the deleted one on
success; the HTTP vault `Delete`, however, returns `true` on *every*
failure path — transport error, non-200 status and decode error alike —
and `(nil, false)` only on success. -/
theorem delete_not_found_amended :
    (∀ (cs : OrderedMapCardStore) (card : Card) (i : Int), card.id = some i →
        (omGet cs.cards i = none →
          (cs.Delete card).1 = (some "card not found", true)
          ∧ (cs.Delete card).2.1 = cs
          ∧ (cs.Delete card).2.2 = card)
        ∧ (∀ old, omGet cs.cards i = some old →
          (cs.Delete card).1 = (none, false)
          ∧ (cs.Delete card).2.2 = populatedFromDeleted card old))
    ∧ (∀ (msg : String) (card : Card),
        (HttpClientCardStore.Delete (.transportError msg) card).1.2 = true)
    ∧ (∀ (st : Int) (dec : Except String Card) (card : Card), st ≠ 200 →
        (HttpClientCardStore.Delete (.response st dec) card).1.2 = true)
    ∧ (∀ (e : String) (card : Card),
        (HttpClientCardStore.Delete (.response 200 (.error e)) card).1.2
          = true)
    ∧ (∀ (c : Card) (card : Card),
        HttpClientCardStore.Delete (.response 200 (.ok c)) card
          = ((none, false), c)) := by
  refine ⟨?_, ?_, ?_, ?_, ?_⟩
  · intro cs card i hid
    constructor
    · intro habs
      have hdel := omDelete_absent cs.cards i habs
      simp [OrderedMapCardStore.Delete, hid, hdel]
    · intro old hsome
      rcases hdel : omDelete cs.cards i with ⟨fst, m⟩
      have hfst : fst = some old := by
        have h2 := omDelete_fst cs.cards i
        rw [hdel, hsome] at h2
        exact h2
      subst hfst
      simp [OrderedMapCardStore.Delete, hid, hdel, populatedFromDeleted]
  · intro msg card
    rfl
  · intro st dec card h
    simp [HttpClientCardStore.Delete, h]
  · intro e card
    rfl
  · intro c card
    rfl

/-- Witness for the amended C6 theorem: a delete on an empty store and a
vault delete hitting a transport failure. -/
theorem delete_not_found_amended_witness :
    ((NewOrderedMapCardStore []).Delete sampleCard).1
      = (some "card not found", true)
    ∧ ((NewOrderedMapCardStore []).Delete sampleCard).2.1
      = NewOrderedMapCardStore []
    ∧ ((NewOrderedMapCardStore []).Delete sampleCard).2.2 = sampleCard
    ∧ (HttpClientCardStore.Delete
        (.transportError "connection refused") sampleCard).1.2 = true := by
  have h :=
    (delete_not_found_amended.1 (NewOrderedMapCardStore []) sampleCard 1
      (by decide)).1 (by decide)
  exact ⟨h.1, h.2.1, h.2.2,
    delete_not_found_amended.2.1 "connection refused" sampleCard⟩

/-- Counterexample to claim C6 as stated: a pure transport failure of
the vault `Delete` — no statement at all about the record's existence —
still comes back with `notFound = true`, not `false`. -/
theorem delete_not_found_counterexample :
    (HttpClientCardStore.Delete
        (.transportError "connection refused") sampleCard).1.2 = true
    ∧ (HttpClientCardStore.Delete
        (.transportError "connection refused") sampleCard).1.1 ≠ none := by
  decide

/-- Every session collected by the query pass is unexpired. -/
theorem sessionQueryLoop_not_expired (spec : Session → Nat → Bool)
    (now : Nat) (l : List Session) : ∀ (c : Nat) (s : Session),
    s ∈ sessionQueryLoop spec now l c → s.hasExpired now = false := by
  induction l with
  | nil => intro c s hs; simp [sessionQueryLoop] at hs
  | cons x xs ih =>
      intro c s hs
      rw [sessionQueryLoop] at hs
      by_cases h : spec x c && !x.hasExpired now
      · rw [if_pos h] at hs
        rcases List.mem_cons.mp hs with rfl | hs₂
        · have h2 := (Bool.and_eq_true _ _).mp h
          simpa using h2.2
        · exact ih (c + 1) s hs₂
      · rw [if_neg h] at hs
        exact ih (c + 1) s hs

/-- Claim C7: `Add` stamps every session (both the caller's record and
the stored copy) with `expireAt = creation time + expireSeconds`, and
`Query` at time `now` excludes every session whose expiration timestamp
is before `now` from the result list while `totalCount` still counts the
whole store — the embedded `Query` takes the store by value and returns
only the result triple, so expiry is a query-time filter, not a
deletion. -/
theorem session_expiry_filter :
    (∀ (ss : OrderedMapSessionStore) (now : Nat) (s : Session),
        ((ss.Add now s).2).expireAt = some (now + expireSeconds)
        ∧ omGet ((ss.Add now s).1).sessions ss.nextId
          = some { s with id := some ss.nextId,
                          expireAt := some (now + expireSeconds) })
    ∧ (∀ (ss : OrderedMapSessionStore) (spec : Session → Nat → Bool)
        (now : Nat) (s : Session) (e : Nat),
        s.expireAt = some e → e < now →
          s ∉ (ss.Query spec now).matched
          ∧ (ss.Query spec now).totalCount = ss.sessions.length) := by
  constructor
  · intro ss now s
    exact ⟨rfl, by simp [OrderedMapSessionStore.Add, omGet_omSet_self]⟩
  · intro ss spec now s e hexp hlt
    refine ⟨fun hmem => ?_, rfl⟩
    have h := sessionQueryLoop_not_expired spec now (omValues ss.sessions) 0 s hmem
    rw [Session.hasExpired, hexp] at h
    simp at h
    omega

/-- Witness for the C7 theorem: a store holding one session expired at
time 500, queried at time 1000 with a match-all specification. -/
theorem session_expiry_filter_witness :
    expiredSession ∉ ((NewOrderedMapSessionStore [(1, expiredSession)]).Query
        (fun _ _ => true) 1000).matched
    ∧ ((NewOrderedMapSessionStore [(1, expiredSession)]).Query
        (fun _ _ => true) 1000).totalCount
      = (NewOrderedMapSessionStore [(1, expiredSession)]).sessions.length :=
  session_expiry_filter.2 (NewOrderedMapSessionStore [(1, expiredSession)])
    (fun _ _ => true) 1000 expiredSession 500 rfl (by decide)

/-- A fold that re-assigns a reference for every element ends at the
head when the list has at most one element. -/
theorem foldl_last_eq_head {α β : Type} (f : α → β → α) (a : α)
    (l : List β) (hl : l.length ≤ 1) :
    l.foldl f a = (match l with | [] => a | b :: _ => f a b) := by
  rcases l with _ | ⟨b, l₂⟩
  · rfl
  · rcases l₂ with _ | ⟨b₂, l₃⟩
    · rfl
    · simp at hl

/-- Claim C8: under the by-id uniqueness of the sub-repository (each
by-id `Query` yields at most one match), the source's hydration steps —
which assign every returned match in turn — coincide with the spec's
§4.3 description: replace a non-nil, id-bearing reference with the
*first* returned match, leave it shallow on zero matches, leave nil and
id-less references untouched, and propagate a sub-query error to the
outer operation. -/
theorem hydration_first_match
    (qC : Int → Except String (Nat × List Currency))
    (qP : Int → Except String (Nat × List Profile))
    (hC : ∀ i n l, qC i = .ok (n, l) → l.length ≤ 1)
    (hP : ∀ i n l, qP i = .ok (n, l) → l.length ≤ 1) :
    (∀ profile, refreshProfileCurrency qC profile
      = refreshProfileCurrencySpecFirst qC profile)
    ∧ (∀ route, refreshRouteProfile qP route
      = refreshRouteProfileSpecFirst qP route) := by
  constructor
  · intro profile
    rcases profile with ⟨pid, pkey, pdesc, pcur⟩
    rw [refreshProfileCurrency, refreshProfileCurrencySpecFirst]
    rcases pcur with _ | ⟨cid, cnc, cn, ccc, cex⟩
    · rfl
    · rcases cid with _ | i
      · rfl
      · rcases hq : qC i with e | ⟨n, l⟩
        · simp only [hq]
        · simp only [hq]
          rw [foldl_last_eq_head _ _ l (hC i n l hq)]
          rcases l with _ | ⟨c, l₂⟩ <;> rfl
  · intro route
    rcases route with ⟨rid, rpr⟩
    rw [refreshRouteProfile, refreshRouteProfileSpecFirst]
    rcases rpr with _ | ⟨pid, pkey, pdesc, pcur⟩
    · rfl
    · rcases pid with _ | i
      · rfl
      · rcases hq : qP i with e | ⟨n, l⟩
        · simp only [hq]
        · simp only [hq]
          rw [foldl_last_eq_head _ _ l (hP i n l hq)]
          rcases l with _ | ⟨pr, l₂⟩ <;> rfl

/-- Witness for the C8 theorem: hydration against a sub-repository
whose by-id query returns no match. -/
theorem hydration_first_match_witness :
    refreshProfileCurrency (fun _ => .ok (0, [])) sampleProfile
      = refreshProfileCurrencySpecFirst (fun _ => .ok (0, [])) sampleProfile
    ∧ refreshRouteProfile (fun _ => .ok (0, [])) sampleRoute
      = refreshRouteProfileSpecFirst (fun _ => .ok (0, [])) sampleRoute := by
  have h := hydration_first_match (fun _ => .ok (0, []))
    (fun _ => .ok (0, []))
    (by
      intro i n l hq
      injection hq with h2
      injection h2 with h3 h4
      subst h4
      simp)
    (by
      intro i n l hq
      injection hq with h2
      injection h2 with h3 h4
      subst h4
      simp)
  exact ⟨h.1 sampleProfile, h.2 sampleRoute⟩

/-- Ids assigned by a run of card `Add` calls count up from the store's
current counter. -/
theorem cardStoreAddAll_ids (inputs : List (String × Card)) :
    ∀ cs : OrderedMapCardStore,
    (cardStoreAddAll cs inputs).2
      = (List.range inputs.length).map (fun k : Nat => cs.nextId + (k : Int)) := by
  induction inputs with
  | nil => intro cs; simp [cardStoreAddAll]
  | cons p rest ih =>
      intro cs
      rcases p with ⟨tok, card⟩
      rw [cardStoreAddAll]
      simp only [OrderedMapCardStore.Add, List.length_cons,
        List.range_succ_eq_map, List.map_cons, List.map_map, Option.getD_some]
      congr 1
      · simp
      · rw [ih]
        apply List.map_congr_left
        intro k _
        simp only [Function.comp]
        push_cast
        ring

/-- Ids assigned by a run of earliest-revision currency `Add` calls
count up from the store's current counter. -/
theorem currencyStoreV1AddAll_ids (inputs : List CurrencyV1) :
    ∀ cs : OrderedMapCurrencyStoreV1,
    (currencyStoreV1AddAll cs inputs).2
      = (List.range inputs.length).map (fun k : Nat => cs.nextId + (k : Int)) := by
  induction inputs with
  | nil => intro cs; simp [currencyStoreV1AddAll]
  | cons currency rest ih =>
      intro cs
      rw [currencyStoreV1AddAll]
      simp only [OrderedMapCurrencyStoreV1.Add, List.length_cons,
        List.range_succ_eq_map, List.map_cons, List.map_map]
      congr 1
      · simp
      · rw [ih]
        apply List.map_congr_left
        intro k _
        simp only [Function.comp]
        push_cast
        ring

/-- Claim C9 (amended): every run of successful `Add` calls on a fresh
in-memory store assigns strictly increasing consecutive identifiers
starting at the store's initial counter — 1 for the card store
constructor, but 0 for the earliest-revision currency store
constructor. -/
theorem add_identifiers_consecutive (inputs : List (String × Card))
    (currencies : List CurrencyV1) :
    (cardStoreAddAll (NewOrderedMapCardStore []) inputs).2
      = (List.range inputs.length).map (fun k : Nat => 1 + (k : Int))
    ∧ (currencyStoreV1AddAll NewOrderedMapCurrencyStoreV1 currencies).2
      = (List.range currencies.length).map (fun k : Nat => (k : Int)) := by
  constructor
  · exact cardStoreAddAll_ids inputs (NewOrderedMapCardStore [])
  · have h := currencyStoreV1AddAll_ids currencies NewOrderedMapCurrencyStoreV1
    simpa [NewOrderedMapCurrencyStoreV1] using h

/-- Counterexample to claim C9 as stated: the earliest-revision currency
store constructor initialises its counter to 0, so the first `Add`
assigns identifier 0, not 1. -/
theorem add_identifiers_counterexample :
    ((NewOrderedMapCurrencyStoreV1.Add sampleCurrencyV1).2).id = 0
    ∧ ¬ ((NewOrderedMapCurrencyStoreV1.Add sampleCurrencyV1).2).id = 1 := by
  decide

/-- The query pass returns no more records than the store's unexpired
ones. -/
theorem sessionQueryLoop_length_le (spec : Session → Nat → Bool)
    (now : Nat) (l : List Session) : ∀ c : Nat,
    (sessionQueryLoop spec now l c).length
      ≤ (l.filter (fun s => !s.hasExpired now)).length := by
  induction l with
  | nil => intro c; simp [sessionQueryLoop]
  | cons x xs ih =>
      intro c
      rw [sessionQueryLoop, List.filter_cons]
      by_cases h : spec x c && !x.hasExpired now
      · rw [if_pos h]
        have h2 := (Bool.and_eq_true _ _).mp h
        rw [if_pos h2.2]
        simpa using ih (c + 1)
      · rw [if_neg h]
        have hle := ih (c + 1)
        by_cases hx : (!x.hasExpired now) = true
        · rw [if_pos hx]
          simp only [List.length_cons]
          omega
        · rw [if_neg hx]
          exact hle

/-- A list with an expired member has strictly fewer unexpired elements
than elements. -/
theorem filter_unexpired_lt_length (now : Nat) (s : Session)
    (l : List Session) (hs : s ∈ l) (hexp : s.hasExpired now = true) :
    (l.filter (fun x => !x.hasExpired now)).length < l.length := by
  induction l with
  | nil => cases hs
  | cons x xs ih =>
      rw [List.filter_cons]
      rcases List.mem_cons.mp hs with rfl | hmem
      · rw [if_neg (by simp [hexp])]
        have := List.length_filter_le (fun x => !x.hasExpired now) xs
        simp only [List.length_cons]
        omega
      · by_cases hx : (!x.hasExpired now) = true
        · rw [if_pos hx]
          simp only [List.length_cons]
          exact Nat.succ_lt_succ (ih hmem)
        · rw [if_neg hx]
          have := ih hmem
          simp only [List.length_cons]
          omega

/-- Claim C10: the in-memory session `Query` reports `totalCount` as
the size of the whole store, expired sessions included, so a store
holding at least one expired session always reports a `totalCount`
strictly above the number of records any specification can match. -/
theorem session_total_count_includes_expired
    (ss : OrderedMapSessionStore) (spec : Session → Nat → Bool)
    (now : Nat) (k : Int) (s : Session) (e : Nat)
    (hmem : (k, s) ∈ ss.sessions) (hexp : s.expireAt = some e)
    (hlt : e < now) :
    (ss.Query spec now).matched.length < (ss.Query spec now).totalCount := by
  have hval : s ∈ omValues ss.sessions := by
    exact List.mem_map_of_mem Prod.snd hmem
  have hexpired : s.hasExpired now = true := by
    rw [Session.hasExpired, hexp]
    simpa using hlt
  have h1 := sessionQueryLoop_length_le spec now (omValues ss.sessions) 0
  have h2 := filter_unexpired_lt_length now s (omValues ss.sessions) hval hexpired
  have h3 : (omValues ss.sessions).length = ss.sessions.length := by
    simp [omValues]
  show (sessionQueryLoop spec now (omValues ss.sessions) 0).length
      < ss.sessions.length
  omega

/-- Witness for the C10 theorem: one expired session makes `totalCount`
exceed any possible match count. -/
theorem session_total_count_includes_expired_witness :
    ((NewOrderedMapSessionStore [(1, expiredSession)]).Query
        (fun _ _ => true) 1000).matched.length
      < ((NewOrderedMapSessionStore [(1, expiredSession)]).Query
        (fun _ _ => true) 1000).totalCount :=
  session_total_count_includes_expired
    (NewOrderedMapSessionStore [(1, expiredSession)]) (fun _ _ => true)
    1000 1 expiredSession 500 (by decide) rfl (by decide)

end Repo
